import Mathlib

/-!
Verification of the state-synchronization core of the Mini-car-3D repository.

The definitions below are a shallow embedding, in exact rational arithmetic,
of the fixed-timestep accumulator loop, the snapshot buffer and its
interpolation, the host-side session handling, and the vehicle speed clamp,
each translated from the JavaScript source (`src/game.js` and the Node host).
-/

namespace MiniCar

/-- Fixed physics step size: `const FIXED_DT = 1 / 60` in game.js. -/
def FIXED_DT : ℚ := 1 / 60

/-- Accumulator cap: `const MAX_ACCUM = 0.25` in game.js. -/
def MAX_ACCUM : ℚ := 1 / 4

/-- Per-frame delta clamp: `const dt = Math.min((now - last) / 1000, 0.05)` in `tick`. -/
def clampDelta (delta : ℚ) : ℚ := min delta (1 / 20)

/-- Accumulator update with cap: `accumulator = Math.min(accumulator + dt, MAX_ACCUM)`. -/
def cappedAccum (acc delta : ℚ) : ℚ := min (acc + clampDelta delta) MAX_ACCUM

/-- The `while (accumulator >= FIXED_DT) { stepPhysics(FIXED_DT); accumulator -= FIXED_DT; }`
loop of `tick`.  Returns the list of dt values passed to `stepPhysics` together with the
final accumulator value. -/
def fixedLoop (acc : ℚ) : List ℚ × ℚ :=
  if h : FIXED_DT ≤ acc then
    let r := fixedLoop (acc - FIXED_DT)
    (FIXED_DT :: r.1, r.2)
  else ([], acc)
termination_by (⌊acc * 60⌋).toNat
decreasing_by
  have h1 : (1 : ℚ) ≤ acc * 60 := by
    rw [FIXED_DT] at h; linarith
  have h2 : (acc - FIXED_DT) * 60 = acc * 60 - 1 := by
    rw [FIXED_DT]; ring
  have h3 : (1 : ℤ) ≤ ⌊acc * 60⌋ := Int.le_floor.mpr (by exact_mod_cast h1)
  rw [h2, Int.floor_sub_one]
  omega

/-- Result of one `tick` frame of the offline fixed-step loop in game.js:
the dt values handed to `stepPhysics`, the post-loop accumulator, and the
interpolation factor `alpha = accumulator / FIXED_DT`. -/
structure FrameResult where
  steps : List ℚ
  accumulator : ℚ
  alpha : ℚ
deriving DecidableEq

/-- One offline-mode frame of `tick`: cap the accumulator, run the fixed-step loop,
expose the residual fraction as alpha. -/
def tickFrame (acc delta : ℚ) : FrameResult :=
  let acc1 := cappedAccum acc delta
  let r := fixedLoop acc1
  { steps := r.1, accumulator := r.2, alpha := r.2 / FIXED_DT }

/-- Trace of the offline loop over a sequence of wall-clock deltas: for each frame,
the accumulator value entering the frame, the raw delta, and the frame result. -/
def frameTrace : ℚ → List ℚ → List (ℚ × ℚ × FrameResult)
  | _, [] => []
  | acc, d :: ds =>
    let f := tickFrame acc d
    (acc, d, f) :: frameTrace f.accumulator ds

theorem fixedLoop_step_values (acc : ℚ) : ∀ x ∈ (fixedLoop acc).1, x = FIXED_DT := by
  induction acc using fixedLoop.induct with
  | case1 acc h ih =>
    rw [fixedLoop, dif_pos h]
    intro x hx
    rcases List.mem_cons.mp hx with h1 | h1
    · exact h1
    · exact ih x h1
  | case2 acc h =>
    rw [fixedLoop, dif_neg h]
    intro x hx
    exact absurd hx (List.not_mem_nil x)

theorem fixedLoop_residual_lt (acc : ℚ) : (fixedLoop acc).2 < FIXED_DT := by
  induction acc using fixedLoop.induct with
  | case1 acc h ih =>
    rw [fixedLoop, dif_pos h]
    exact ih
  | case2 acc h =>
    rw [fixedLoop, dif_neg h]
    exact lt_of_not_le h

theorem fixedLoop_residual_nonneg (acc : ℚ) (h0 : 0 ≤ acc) : 0 ≤ (fixedLoop acc).2 := by
  induction acc using fixedLoop.induct with
  | case1 acc h ih =>
    rw [fixedLoop, dif_pos h]
    refine ih ?_
    have : (0 : ℚ) < FIXED_DT := by rw [FIXED_DT]; norm_num
    linarith
  | case2 acc h =>
    rw [fixedLoop, dif_neg h]
    exact h0

theorem fixedLoop_count (acc : ℚ) (h0 : 0 ≤ acc) :
    ((fixedLoop acc).1).length = ⌊acc / FIXED_DT⌋₊ := by
  induction acc using fixedLoop.induct with
  | case1 acc h ih =>
    have hdt : (0 : ℚ) < FIXED_DT := by rw [FIXED_DT]; norm_num
    have hsub : (0 : ℚ) ≤ acc - FIXED_DT := by linarith
    have h1le : (1 : ℚ) ≤ acc / FIXED_DT := (one_le_div hdt).mpr h
    have hdiv : (acc - FIXED_DT) / FIXED_DT = acc / FIXED_DT - 1 := by
      field_simp
    have hfl : ⌊acc / FIXED_DT - 1⌋₊ = ⌊acc / FIXED_DT⌋₊ - 1 := Nat.floor_sub_one _
    have hge1 : 1 ≤ ⌊acc / FIXED_DT⌋₊ := (Nat.one_le_floor_iff (acc / FIXED_DT)).mpr h1le
    rw [fixedLoop, dif_pos h]
    simp only [List.length_cons, ih hsub, hdiv, hfl]
    omega
  | case2 acc h =>
    have hdt : (0 : ℚ) < FIXED_DT := by rw [FIXED_DT]; norm_num
    have : acc / FIXED_DT < 1 := (div_lt_one hdt).mpr (lt_of_not_le h)
    rw [fixedLoop, dif_neg h]
    simp only [List.length_nil]
    symm
    rw [Nat.floor_eq_zero]
    exact this

theorem cappedAccum_nonneg (acc d : ℚ) (ha : 0 ≤ acc) (hd : 0 ≤ d) :
    0 ≤ cappedAccum acc d := by
  rw [cappedAccum, clampDelta, MAX_ACCUM]
  have : (0 : ℚ) ≤ min d (1 / 20) := le_min hd (by norm_num)
  exact le_min (by linarith) (by norm_num)

theorem cappedAccum_le (acc d : ℚ) : cappedAccum acc d ≤ MAX_ACCUM := min_le_right _ _

theorem steps_le_fifteen (acc : ℚ) (h0 : 0 ≤ acc) (hcap : acc ≤ MAX_ACCUM) :
    ((fixedLoop acc).1).length ≤ 15 := by
  rw [fixedLoop_count acc h0]
  have hdt : (0 : ℚ) < FIXED_DT := by rw [FIXED_DT]; norm_num
  have : acc / FIXED_DT ≤ 15 := by
    rw [div_le_iff₀ hdt, FIXED_DT]
    rw [MAX_ACCUM] at hcap
    linarith
  calc ⌊acc / FIXED_DT⌋₊ ≤ ⌊(15 : ℚ)⌋₊ := Nat.floor_le_floor this
    _ = 15 := by norm_num

/-- C1: in the offline fixed-step loop, for every sequence of wall-clock deltas
(each clamped to 50 ms), every frame executes exactly
`floor(cappedAccumulator / FIXED_DT)` physics steps where the accumulator is capped at
`MAX_ACCUM` before stepping, each step receives exactly `FIXED_DT`, at most 15 steps run
per frame (time beyond the cap is discarded), and after the loop the residual accumulator
satisfies `0 <= accumulator < FIXED_DT` and is exposed as `alpha = accumulator / FIXED_DT`. -/
theorem fixed_step_loop_contract (deltas : List ℚ) (hd : ∀ d ∈ deltas, 0 ≤ d) :
    ∀ e ∈ frameTrace 0 deltas,
      (e.2.2.steps).length = ⌊cappedAccum e.1 e.2.1 / FIXED_DT⌋₊ ∧
      (∀ x ∈ e.2.2.steps, x = FIXED_DT) ∧
      (e.2.2.steps).length ≤ 15 ∧
      0 ≤ e.2.2.accumulator ∧ e.2.2.accumulator < FIXED_DT ∧
      e.2.2.alpha = e.2.2.accumulator / FIXED_DT := by
  suffices h : ∀ (ds : List ℚ), (∀ d ∈ ds, 0 ≤ d) → ∀ (a : ℚ), 0 ≤ a →
      ∀ e ∈ frameTrace a ds,
        (e.2.2.steps).length = ⌊cappedAccum e.1 e.2.1 / FIXED_DT⌋₊ ∧
        (∀ x ∈ e.2.2.steps, x = FIXED_DT) ∧
        (e.2.2.steps).length ≤ 15 ∧
        0 ≤ e.2.2.accumulator ∧ e.2.2.accumulator < FIXED_DT ∧
        e.2.2.alpha = e.2.2.accumulator / FIXED_DT by
    exact h deltas hd 0 le_rfl
  intro ds
  induction ds with
  | nil =>
    intro _ a _ e he
    exact absurd he (List.not_mem_nil e)
  | cons d rest ih =>
    intro hds a ha e he
    have hd0 : 0 ≤ d := hds d (List.mem_cons_self d rest)
    have hrest : ∀ x ∈ rest, 0 ≤ x := fun x hx => hds x (List.mem_cons_of_mem d hx)
    have hacc1 : 0 ≤ cappedAccum a d := cappedAccum_nonneg a d ha hd0
    have hcap : cappedAccum a d ≤ MAX_ACCUM := cappedAccum_le a d
    rw [frameTrace] at he
    rcases List.mem_cons.mp he with h1 | h1
    · subst h1
      refine ⟨fixedLoop_count _ hacc1, fixedLoop_step_values _,
        steps_le_fifteen _ hacc1 hcap, fixedLoop_residual_nonneg _ hacc1,
        fixedLoop_residual_lt _, rfl⟩
    · have hnext : 0 ≤ (tickFrame a d).accumulator :=
        fixedLoop_residual_nonneg _ hacc1
      exact ih hrest (tickFrame a d).accumulator hnext e h1

/-- C1 witness: a concrete frame. With accumulator 0 and delta 1/30 s the frame runs
exactly 2 fixed steps of width 1/60 and leaves residual 0. -/
theorem fixed_step_loop_contract_witness :
    (∀ d ∈ [(1 : ℚ) / 30], 0 ≤ d) ∧
      (((tickFrame 0 (1 / 30)).steps).length = ⌊cappedAccum 0 (1 / 30) / FIXED_DT⌋₊ ∧
        (∀ x ∈ (tickFrame 0 (1 / 30)).steps, x = FIXED_DT) ∧
        ((tickFrame 0 (1 / 30)).steps).length ≤ 15 ∧
        0 ≤ (tickFrame 0 (1 / 30)).accumulator ∧
        (tickFrame 0 (1 / 30)).accumulator < FIXED_DT ∧
        (tickFrame 0 (1 / 30)).alpha = (tickFrame 0 (1 / 30)).accumulator / FIXED_DT) := by
  constructor
  · intro d hdm
    rw [List.mem_singleton] at hdm
    rw [hdm]; norm_num
  · exact fixed_step_loop_contract [(1 : ℚ) / 30] (by intro d hdm; rw [List.mem_singleton] at hdm; rw [hdm]; norm_num)
      (0, 1 / 30, tickFrame 0 (1 / 30)) (by rw [frameTrace]; exact List.mem_cons_self _ _)

/-- A received snapshot message, reduced to the fields the client buffer logic reads:
the server tick index and the embedded server timestamp. -/
structure Snap where
  tick : ℕ
  serverTime : ℚ
deriving DecidableEq

instance : Inhabited Snap := ⟨⟨0, 0⟩⟩

/-- Render look-behind window: `NETWORK.snapshotDelay = 0.12` seconds. -/
def snapshotDelay : ℚ := 12 / 100

/-- Adjusted snapshot time: `snapshotClientTime(snap) = snap.serverTime + NETWORK.serverTimeOffset`. -/
def snapshotClientTime (off : ℚ) (s : Snap) : ℚ := s.serverTime + off

/-- Render timestamp: `renderTime = performance.now() - NETWORK.snapshotDelay * 1000`. -/
def renderTimestamp (now : ℚ) : ℚ := now - snapshotDelay * 1000

/-- The comparator of `NETWORK.snapshotBuffer.sort((a, b) => a.serverTime - b.serverTime)`
as a Boolean le relation. -/
def snapLE (a b : Snap) : Bool := a.serverTime ≤ b.serverTime

/-- The pruning loop of `applySnapshotInterpolation`:
`while (buffer.length > 2 && snapshotClientTime(buffer[1]) <= renderTime) buffer.shift()`. -/
def pruneSnapshotBuffer (off rt : ℚ) : List Snap → List Snap
  | a :: b :: c :: rest =>
    if snapshotClientTime off b ≤ rt then pruneSnapshotBuffer off rt (b :: c :: rest)
    else a :: b :: c :: rest
  | l => l

/-- Spec-side rendering of the prune rule, written from the spec sentence: remove the
front entry while the buffer has more than 2 entries and the second entry's adjusted
time is at most the render timestamp. -/
def pruneBySpec (off rt : ℚ) (l : List Snap) : List Snap :=
  if h : 2 < l.length ∧ snapshotClientTime off l.tail.headI ≤ rt then
    pruneBySpec off rt l.tail
  else l
termination_by l.length
decreasing_by
  rcases l with _ | ⟨x, xs⟩
  · simp at h
  · simp

/-- The selection computed by `applySnapshotInterpolation`: the pruned buffer, the
`prev`/`next` pair and the interpolation factor. -/
structure InterpSelection where
  buffer : List Snap
  prev : Snap
  next : Snap
  alpha : ℚ
deriving DecidableEq

/-- `THREE.MathUtils.clamp(value, min, max) = Math.max(min, Math.min(max, value))`
(also the local `clamp` helper of game.js and the host). -/
def clampQ (v lo hi : ℚ) : ℚ := max lo (min hi v)

/-- `applySnapshotInterpolation` from game.js, restricted to the buffer bookkeeping:
early return on an empty buffer, sort by server time, prune, pick
`prev = buffer[0]`, `next = buffer.find(s => time(s) >= renderTime) || last`, and
`alpha = clamp((renderTime - prevTime) / Math.max(1, nextTime - prevTime), 0, 1)`. -/
def applySnapshotInterpolation (off rt : ℚ) (buffer : List Snap) : Option InterpSelection :=
  if buffer.isEmpty then none
  else
    match pruneSnapshotBuffer off rt (buffer.mergeSort snapLE) with
    | [] => none
    | p :: t =>
      let next := ((p :: t).find? (fun s => rt ≤ snapshotClientTime off s)).getD
        ((p :: t).getLastD p)
      let prevTime := snapshotClientTime off p
      let nextTime := snapshotClientTime off next
      some ⟨p :: t, p, next, clampQ ((rt - prevTime) / max 1 (nextTime - prevTime)) 0 1⟩

theorem prune_eq_spec (off rt : ℚ) (l : List Snap) :
    pruneSnapshotBuffer off rt l = pruneBySpec off rt l := by
  induction l using pruneBySpec.induct off rt with
  | case1 l h ih =>
    obtain ⟨hlen, htime⟩ := h
    rcases l with _ | ⟨a, _ | ⟨b, _ | ⟨c, rest⟩⟩⟩
    · simp at hlen
    · simp at hlen
    · simp at hlen
    · simp only [List.tail_cons, List.headI_cons] at htime ih
      rw [pruneSnapshotBuffer, if_pos htime, pruneBySpec]
      rw [dif_pos ⟨hlen, htime⟩]
      simpa using ih
  | case2 l h =>
    rw [pruneBySpec, dif_neg h]
    rcases l with _ | ⟨a, _ | ⟨b, _ | ⟨c, rest⟩⟩⟩
    · rfl
    · rfl
    · rfl
    · have hlen : 2 < (a :: b :: c :: rest).length := by simp
      have htime : ¬ snapshotClientTime off b ≤ rt := by
        intro hc
        exact h ⟨hlen, by simpa using hc⟩
      rw [pruneSnapshotBuffer, if_neg htime]

theorem prune_suffix (off rt : ℚ) (l : List Snap) :
    pruneSnapshotBuffer off rt l <:+ l := by
  induction l using pruneSnapshotBuffer.induct off rt with
  | case1 a b c rest htime ih =>
    rw [pruneSnapshotBuffer, if_pos htime]
    exact ih.trans (List.suffix_cons a (b :: c :: rest))
  | case2 a b c rest htime =>
    rw [pruneSnapshotBuffer, if_neg htime]
  | case3 l h =>
    rcases l with _ | ⟨a, _ | ⟨b, _ | ⟨c, rest⟩⟩⟩
    · rfl
    · rfl
    · rfl
    · exact absurd rfl (h a b c rest)

theorem prune_ne_nil (off rt : ℚ) (l : List Snap) (hl : l ≠ []) :
    pruneSnapshotBuffer off rt l ≠ [] := by
  induction l using pruneSnapshotBuffer.induct off rt with
  | case1 a b c rest htime ih =>
    rw [pruneSnapshotBuffer, if_pos htime]
    exact ih (by simp)
  | case2 a b c rest htime =>
    rw [pruneSnapshotBuffer, if_neg htime]
    simp
  | case3 l h =>
    rcases l with _ | ⟨a, _ | ⟨b, _ | ⟨c, rest⟩⟩⟩
    · exact absurd rfl hl
    · simp [pruneSnapshotBuffer]
    · simp [pruneSnapshotBuffer]
    · exact absurd rfl (h a b c rest)

theorem find_decomposition {α : Type} (p : α → Bool) (l : List α) :
    (∃ x l1 l2, List.find? p l = some x ∧ l = l1 ++ x :: l2 ∧ ∀ y ∈ l1, p y = false)
    ∨ (List.find? p l = none ∧ ∀ y ∈ l, p y = false) := by
  induction l with
  | nil => right; simp
  | cons a t ih =>
    by_cases hpa : p a = true
    · left
      exact ⟨a, [], t, by rw [List.find?_cons_of_pos _ hpa], by simp, by simp⟩
    · have hpa' : p a = false := Bool.eq_false_iff.mpr hpa
      rcases ih with ⟨x, l1, l2, hfind, heq, hall⟩ | ⟨hfind, hall⟩
      · left
        refine ⟨x, a :: l1, l2, ?_, by simp [heq], ?_⟩
        · rw [List.find?_cons_of_neg _ hpa]; exact hfind
        · intro y hy
          rcases List.mem_cons.mp hy with h1 | h1
          · rw [h1]; exact hpa'
          · exact hall y h1
      · right
        refine ⟨?_, ?_⟩
        · rw [List.find?_cons_of_neg _ hpa]; exact hfind
        · intro y hy
          rcases List.mem_cons.mp hy with h1 | h1
          · rw [h1]; exact hpa'
          · exact hall y h1

/-- C2: for every snapshot buffer and render timestamp, `applySnapshotInterpolation`
prunes from the front exactly while the buffer has more than 2 entries and the second
entry's adjusted time is at most the render timestamp (so the pruned buffer is a suffix
of the sorted buffer), selects `prev` as the buffer front and `next` as the first entry
with adjusted time at least the render timestamp (falling back to the last entry when
none qualifies), and computes
`alpha = clamp((renderTime - prevTime) / max(1, nextTime - prevTime), 0, 1)`. -/
theorem snapshot_interpolation_selection (off rt : ℚ) (buffer : List Snap)
    (hb : buffer ≠ []) :
    ∃ sel, applySnapshotInterpolation off rt buffer = some sel ∧
      sel.buffer = pruneBySpec off rt (buffer.mergeSort snapLE) ∧
      sel.buffer <:+ buffer.mergeSort snapLE ∧
      (∃ t, sel.buffer = sel.prev :: t) ∧
      ((∃ l1 l2, sel.buffer = l1 ++ sel.next :: l2 ∧
          (∀ s ∈ l1, snapshotClientTime off s < rt) ∧
          rt ≤ snapshotClientTime off sel.next)
        ∨ ((∀ s ∈ sel.buffer, snapshotClientTime off s < rt) ∧
            sel.next = sel.buffer.getLastD sel.prev)) ∧
      sel.alpha = clampQ ((rt - snapshotClientTime off sel.prev) /
        max 1 (snapshotClientTime off sel.next - snapshotClientTime off sel.prev)) 0 1 := by
  have hsorted_ne : buffer.mergeSort snapLE ≠ [] := by
    intro hc
    have := List.mergeSort_perm buffer snapLE
    rw [hc] at this
    exact hb (List.Perm.nil_eq this).symm
  have hpruned_ne : pruneSnapshotBuffer off rt (buffer.mergeSort snapLE) ≠ [] :=
    prune_ne_nil off rt _ hsorted_ne
  rcases hp : pruneSnapshotBuffer off rt (buffer.mergeSort snapLE) with _ | ⟨p, t⟩
  · exact absurd hp hpruned_ne
  have hbe : buffer.isEmpty = false := by
    rcases buffer with _ | ⟨x, xs⟩
    · exact absurd rfl hb
    · rfl
  refine ⟨⟨p :: t, p,
      ((p :: t).find? (fun s => rt ≤ snapshotClientTime off s)).getD ((p :: t).getLastD p),
      clampQ ((rt - snapshotClientTime off p) /
        max 1 (snapshotClientTime off
            (((p :: t).find? (fun s => rt ≤ snapshotClientTime off s)).getD
              ((p :: t).getLastD p)) -
          snapshotClientTime off p)) 0 1⟩, ?_, ?_, ?_, ⟨t, rfl⟩, ?_, rfl⟩
  · simp only [applySnapshotInterpolation, hbe, Bool.false_eq_true, if_false, hp]
  · rw [← hp, prune_eq_spec]
  · rw [← hp]; exact prune_suffix off rt _
  · rcases find_decomposition (fun s => rt ≤ snapshotClientTime off s) (p :: t) with
      ⟨x, l1, l2, hfind, heq, hall⟩ | ⟨hfind, hall⟩
    · left
      refine ⟨l1, l2, ?_, ?_, ?_⟩
      · simpa [hfind] using heq
      · intro s hs
        have := hall s hs
        simpa using this
      · have h1 := List.find?_some hfind
        simp only [decide_eq_true_eq] at h1
        simpa [hfind] using h1
    · right
      refine ⟨?_, ?_⟩
      · intro s hs
        have := hall s hs
        simpa using this
      · simp [hfind]

/-- C2 witness: a concrete three-snapshot buffer at render time 150 with zero clock
offset; the front entry is pruned, `prev` has time 100, `next` time 200, alpha 1/2. -/
theorem snapshot_interpolation_selection_witness :
    ([(⟨1, 0⟩ : Snap), ⟨2, 100⟩, ⟨3, 200⟩] ≠ ([] : List Snap)) ∧
      (∃ sel, applySnapshotInterpolation 0 150 [(⟨1, 0⟩ : Snap), ⟨2, 100⟩, ⟨3, 200⟩] = some sel ∧
        sel.buffer = pruneBySpec 0 150 (([(⟨1, 0⟩ : Snap), ⟨2, 100⟩, ⟨3, 200⟩]).mergeSort snapLE) ∧
        sel.buffer <:+ ([(⟨1, 0⟩ : Snap), ⟨2, 100⟩, ⟨3, 200⟩]).mergeSort snapLE ∧
        (∃ t, sel.buffer = sel.prev :: t) ∧
        ((∃ l1 l2, sel.buffer = l1 ++ sel.next :: l2 ∧
            (∀ s ∈ l1, snapshotClientTime 0 s < 150) ∧
            (150 : ℚ) ≤ snapshotClientTime 0 sel.next)
          ∨ ((∀ s ∈ sel.buffer, snapshotClientTime 0 s < 150) ∧
              sel.next = sel.buffer.getLastD sel.prev)) ∧
        sel.alpha = clampQ ((150 - snapshotClientTime 0 sel.prev) /
          max 1 (snapshotClientTime 0 sel.next - snapshotClientTime 0 sel.prev)) 0 1) :=
  ⟨by decide, snapshot_interpolation_selection 0 150 [⟨1, 0⟩, ⟨2, 100⟩, ⟨3, 200⟩] (by decide)⟩

/-- The snapshot branch of `handleMessage` in game.js: push the received snapshot,
re-sort the buffer by server time, and `shift()` the front entry when the buffer
exceeds 90 entries. -/
def snapshotBufferInsert (buf : List Snap) (s : Snap) : List Snap :=
  let sorted := (buf ++ [s]).mergeSort snapLE
  if 90 < sorted.length then sorted.drop 1 else sorted

/-- Processing a sequence of received snapshot messages starting from the empty buffer. -/
def processSnapshots (msgs : List Snap) : List Snap :=
  msgs.foldl snapshotBufferInsert []

theorem snapLE_trans (a b c : Snap) (h1 : snapLE a b = true) (h2 : snapLE b c = true) :
    snapLE a c = true := by
  simp only [snapLE, decide_eq_true_eq] at h1 h2 ⊢
  exact le_trans h1 h2

theorem snapLE_total (a b : Snap) : (snapLE a b || snapLE b a) = true := by
  simp only [snapLE, Bool.or_eq_true, decide_eq_true_eq]
  exact le_total a.serverTime b.serverTime

theorem snapshotBufferInsert_sorted (buf : List Snap) (s : Snap) :
    (snapshotBufferInsert buf s).Pairwise (fun a b => a.serverTime ≤ b.serverTime) := by
  have hs : ((buf ++ [s]).mergeSort snapLE).Pairwise (fun a b => snapLE a b = true) :=
    List.sorted_mergeSort snapLE_trans snapLE_total (buf ++ [s])
  have hs2 : ((buf ++ [s]).mergeSort snapLE).Pairwise
      (fun a b => a.serverTime ≤ b.serverTime) := by
    refine hs.imp ?_
    intro a b hab
    simpa [snapLE] using hab
  rw [snapshotBufferInsert]
  by_cases hlen : 90 < ((buf ++ [s]).mergeSort snapLE).length
  · simp only [hlen, if_true]
    exact List.Pairwise.sublist (List.drop_sublist 1 _) hs2
  · simp only [hlen, if_false]
    exact hs2

theorem snapshotBufferInsert_length (buf : List Snap) (s : Snap) :
    (snapshotBufferInsert buf s).length =
      if 90 < buf.length + 1 then buf.length else buf.length + 1 := by
  have hlen : ((buf ++ [s]).mergeSort snapLE).length = buf.length + 1 := by
    rw [List.length_mergeSort, List.length_append, List.length_cons, List.length_nil]
  rw [snapshotBufferInsert]
  by_cases hc : 90 < buf.length + 1
  · rw [if_pos (by rw [hlen]; exact hc), if_pos hc, List.length_drop, hlen]
    omega
  · rw [if_neg (by rw [hlen]; exact hc), if_neg hc, hlen]

theorem snapshotBufferInsert_multiset_le (buf : List Snap) (s : Snap) :
    (snapshotBufferInsert buf s : Multiset Snap) ≤ ((buf ++ [s] : List Snap) : Multiset Snap) := by
  have hperm : ((buf ++ [s]).mergeSort snapLE).Perm (buf ++ [s]) :=
    List.mergeSort_perm (buf ++ [s]) snapLE
  rw [snapshotBufferInsert]
  by_cases hlen : 90 < ((buf ++ [s]).mergeSort snapLE).length
  · simp only [hlen, if_true]
    calc ((((buf ++ [s]).mergeSort snapLE).drop 1 : List Snap) : Multiset Snap)
        ≤ (((buf ++ [s]).mergeSort snapLE : List Snap) : Multiset Snap) := by
          rw [Multiset.coe_le]
          exact (List.drop_sublist 1 _).subperm
      _ = ((buf ++ [s] : List Snap) : Multiset Snap) := Quot.sound hperm
  · simp only [hlen, if_false]
    exact le_of_eq (Quot.sound hperm)

theorem processSnapshots_multiset_le (msgs : List Snap) :
    (processSnapshots msgs : Multiset Snap) ≤ (msgs : Multiset Snap) := by
  suffices h : ∀ (ms : List Snap) (buf : List Snap),
      ((ms.foldl snapshotBufferInsert buf : List Snap) : Multiset Snap) ≤
        (buf : Multiset Snap) + (ms : Multiset Snap) by
    have h2 := h msgs []
    simpa [processSnapshots] using h2
  intro ms
  induction ms with
  | nil =>
    intro buf
    simp
  | cons m rest ih =>
    intro buf
    rw [List.foldl_cons]
    refine le_trans (ih (snapshotBufferInsert buf m)) ?_
    have h1 : ((snapshotBufferInsert buf m : List Snap) : Multiset Snap) ≤
        (buf : Multiset Snap) + {m} := by
      have := snapshotBufferInsert_multiset_le buf m
      simpa using this
    calc ((snapshotBufferInsert buf m : List Snap) : Multiset Snap) + (rest : Multiset Snap)
        ≤ ((buf : Multiset Snap) + {m}) + (rest : Multiset Snap) :=
          add_le_add_right h1 _
      _ = (buf : Multiset Snap) + ((m :: rest : List Snap) : Multiset Snap) := by
          rw [add_assoc, Multiset.singleton_add, ← Multiset.cons_coe]

theorem processSnapshots_sorted (msgs : List Snap) :
    (processSnapshots msgs).Pairwise (fun a b => a.serverTime ≤ b.serverTime) := by
  suffices h : ∀ (ms : List Snap) (buf : List Snap),
      buf.Pairwise (fun a b => a.serverTime ≤ b.serverTime) →
      (ms.foldl snapshotBufferInsert buf).Pairwise (fun a b => a.serverTime ≤ b.serverTime) by
    exact h msgs [] List.Pairwise.nil
  intro ms
  induction ms with
  | nil => intro buf hbuf; exact hbuf
  | cons m rest ih =>
    intro buf _
    rw [List.foldl_cons]
    exact ih (snapshotBufferInsert buf m) (snapshotBufferInsert_sorted buf m)

theorem processSnapshots_length (msgs : List Snap) :
    (processSnapshots msgs).length ≤ 90 := by
  suffices h : ∀ (ms : List Snap) (buf : List Snap), buf.length ≤ 90 →
      (ms.foldl snapshotBufferInsert buf).length ≤ 90 by
    exact h msgs [] (by simp)
  intro ms
  induction ms with
  | nil => intro buf hbuf; exact hbuf
  | cons m rest ih =>
    intro buf hbuf
    rw [List.foldl_cons]
    refine ih (snapshotBufferInsert buf m) ?_
    rw [snapshotBufferInsert_length]
    by_cases hc : 90 < buf.length + 1
    · rw [if_pos hc]; exact hbuf
    · rw [if_neg hc]; omega

theorem snapshotBufferInsert_perm (buf : List Snap) (s : Snap)
    (h : buf.length + 1 ≤ 90) :
    (snapshotBufferInsert buf s).Perm (buf ++ [s]) := by
  rw [snapshotBufferInsert]
  rw [if_neg (by rw [List.length_mergeSort, List.length_append]; simp; omega)]
  exact List.mergeSort_perm _ _

/-- C3 counterexample: receiving the same tick index twice leaves two entries with
duplicate tick indices in the buffer; `handleMessage` never deduplicates ticks. -/
theorem snapshot_buffer_dup_tick_counterexample :
    ¬ ((processSnapshots [⟨5, 100⟩, ⟨5, 100⟩]).map Snap.tick).Nodup := by
  have p1 : (snapshotBufferInsert [] (⟨5, 100⟩ : Snap)).Perm [⟨5, 100⟩] :=
    snapshotBufferInsert_perm [] ⟨5, 100⟩ (by simp)
  have hlen1 : (snapshotBufferInsert [] (⟨5, 100⟩ : Snap)).length = 1 := by
    rw [snapshotBufferInsert_length]; simp
  have p2 : (snapshotBufferInsert (snapshotBufferInsert [] (⟨5, 100⟩ : Snap)) ⟨5, 100⟩).Perm
      (snapshotBufferInsert [] (⟨5, 100⟩ : Snap) ++ [⟨5, 100⟩]) :=
    snapshotBufferInsert_perm _ ⟨5, 100⟩ (by rw [hlen1]; omega)
  have p3 : (processSnapshots [⟨5, 100⟩, ⟨5, 100⟩]).Perm [⟨5, 100⟩, ⟨5, 100⟩] := by
    have hp : processSnapshots [⟨5, 100⟩, ⟨5, 100⟩] =
        snapshotBufferInsert (snapshotBufferInsert [] (⟨5, 100⟩ : Snap)) ⟨5, 100⟩ := rfl
    rw [hp]
    refine p2.trans ?_
    have := p1.append_right [(⟨5, 100⟩ : Snap)]
    simpa using this
  intro hnd
  have p4 : ((processSnapshots [⟨5, 100⟩, ⟨5, 100⟩]).map Snap.tick).Perm [5, 5] := p3.map Snap.tick
  have : ([5, 5] : List ℕ).Nodup := p4.nodup_iff.mp hnd
  simp at this

/-- C3 (amended): after any sequence of received snapshot messages the buffer is sorted
ascending by server time and never holds more than 90 entries; an insert grows the
buffer by one until the 90 bound, after which the front (minimal-server-time) entry of
the re-sorted buffer is evicted; duplicate tick indices are not filtered, so the buffer
has pairwise-distinct ticks whenever the received messages do. -/
theorem snapshot_buffer_invariants (msgs buf : List Snap) (s x : Snap)
    (hnd : (msgs.map Snap.tick).Nodup)
    (hx : x ∈ snapshotBufferInsert buf s) :
    (processSnapshots msgs).Pairwise (fun a b => a.serverTime ≤ b.serverTime) ∧
    (processSnapshots msgs).length ≤ 90 ∧
    ((processSnapshots msgs).map Snap.tick).Nodup ∧
    (snapshotBufferInsert buf s).length =
      (if 90 < buf.length + 1 then buf.length else buf.length + 1) ∧
    (((buf ++ [s]).mergeSort snapLE).headI).serverTime ≤ x.serverTime := by
  refine ⟨processSnapshots_sorted msgs, processSnapshots_length msgs, ?_, ?_, ?_⟩
  · have hle : (processSnapshots msgs : Multiset Snap) ≤ (msgs : Multiset Snap) :=
      processSnapshots_multiset_le msgs
    have hmap : ((processSnapshots msgs).map Snap.tick : Multiset ℕ) ≤
        (msgs.map Snap.tick : Multiset ℕ) := by
      have := Multiset.map_le_map (f := Snap.tick) hle
      simpa using this
    have hnd2 : ((msgs.map Snap.tick : List ℕ) : Multiset ℕ).Nodup := by
      rw [Multiset.coe_nodup]; exact hnd
    have := Multiset.nodup_of_le hmap hnd2
    rwa [Multiset.coe_nodup] at this
  · exact snapshotBufferInsert_length buf s
  · have hs2 : ((buf ++ [s]).mergeSort snapLE).Pairwise
        (fun a b => a.serverTime ≤ b.serverTime) := by
      refine (List.sorted_mergeSort snapLE_trans snapLE_total (buf ++ [s])).imp ?_
      intro a b hab
      simpa [snapLE] using hab
    have hmem : x ∈ (buf ++ [s]).mergeSort snapLE := by
      rw [snapshotBufferInsert] at hx
      by_cases hlen : 90 < ((buf ++ [s]).mergeSort snapLE).length
      · simp only [hlen, if_true] at hx
        exact (List.drop_sublist 1 _).subset hx
      · simp only [hlen, if_false] at hx
        exact hx
    rcases hsort : (buf ++ [s]).mergeSort snapLE with _ | ⟨h0, t0⟩
    · rw [hsort] at hmem
      exact absurd hmem (List.not_mem_nil x)
    · rw [hsort] at hmem hs2
      rw [List.headI_cons]
      rcases List.mem_cons.mp hmem with h1 | h1
      · rw [h1]
      · exact (List.pairwise_cons.mp hs2).1 x h1

/-- C3 witness: concrete messages with distinct ticks and a concrete insert into the
empty buffer. -/
theorem snapshot_buffer_invariants_witness :
    (((([⟨1, 10⟩, ⟨2, 5⟩] : List Snap)).map Snap.tick).Nodup ∧
      (⟨0, 7⟩ : Snap) ∈ snapshotBufferInsert [] ⟨0, 7⟩) ∧
    ((processSnapshots [⟨1, 10⟩, ⟨2, 5⟩]).Pairwise (fun a b => a.serverTime ≤ b.serverTime) ∧
      (processSnapshots [⟨1, 10⟩, ⟨2, 5⟩]).length ≤ 90 ∧
      ((processSnapshots [⟨1, 10⟩, ⟨2, 5⟩]).map Snap.tick).Nodup ∧
      (snapshotBufferInsert [] (⟨0, 7⟩ : Snap)).length =
        (if 90 < ([] : List Snap).length + 1 then ([] : List Snap).length
          else ([] : List Snap).length + 1) ∧
      ((([] ++ [(⟨0, 7⟩ : Snap)]).mergeSort snapLE).headI).serverTime ≤
        (⟨0, 7⟩ : Snap).serverTime) :=
  ⟨⟨by decide,
      ((snapshotBufferInsert_perm [] ⟨0, 7⟩ (by simp)).mem_iff).mpr (by simp)⟩,
    snapshot_buffer_invariants [⟨1, 10⟩, ⟨2, 5⟩] [] ⟨0, 7⟩ ⟨0, 7⟩ (by decide)
      (((snapshotBufferInsert_perm [] ⟨0, 7⟩ (by simp)).mem_iff).mpr (by simp))⟩

/-- An input sample as stored per session on the host (`lastInput` in the clients map). -/
structure InputSample where
  steer : ℚ
  throttle : ℚ
  brake : Bool
deriving DecidableEq

/-- The host-side session fields touched by the input handler: the stored input
sample, the last stored sequence number and the liveness timestamp. -/
structure ClientSession where
  lastInput : InputSample
  lastSeq : ℚ
  lastSeen : ℚ
deriving DecidableEq

/-- An incoming `input` message. `seq` is `some` exactly when
`typeof data.seq === 'number'`; steer and throttle carry the values produced by the
handler's `Number(...) || 0` coercion. -/
structure InputMsg where
  seq : Option ℚ
  steer : ℚ
  throttle : ℚ
  brake : Bool
deriving DecidableEq

/-- The `input` branch of the host's per-connection message handler: overwrite the
stored input, overwrite the stored sequence number whenever the message carries a
numeric one, and refresh the liveness timestamp. -/
def handleInputMessage (now : ℚ) (c : ClientSession) (m : InputMsg) : ClientSession :=
  { lastInput := { steer := m.steer, throttle := m.throttle, brake := m.brake }
    lastSeq := m.seq.getD c.lastSeq
    lastSeen := now }

/-- C4 counterexample: an input message whose sequence number (3) is lower than the
session's last applied sequence number (5) is not discarded: it overwrites both the
stored input sample and the stored sequence number. -/
theorem input_out_of_order_counterexample :
    (handleInputMessage 7 ⟨⟨0, 0, false⟩, 5, 0⟩ ⟨some 3, 1, 1, true⟩).lastInput ≠
        (⟨⟨0, 0, false⟩, 5, 0⟩ : ClientSession).lastInput ∧
      (handleInputMessage 7 ⟨⟨0, 0, false⟩, 5, 0⟩ ⟨some 3, 1, 1, true⟩).lastSeq = 3 := by
  decide

/-- C4 (amended): the last received input always wins: every input message overwrites
the stored input sample and, whenever it carries a numeric sequence number, the stored
sequence number, regardless of ordering; lower-than-last sequence numbers are not
discarded. -/
theorem input_last_wins (now1 now2 : ℚ) (c : ClientSession) (m1 m2 : InputMsg) :
    (handleInputMessage now2 (handleInputMessage now1 c m1) m2).lastInput =
        ⟨m2.steer, m2.throttle, m2.brake⟩ ∧
      (handleInputMessage now2 (handleInputMessage now1 c m1) m2).lastSeq =
        m2.seq.getD (m1.seq.getD c.lastSeq) ∧
      (handleInputMessage now2 (handleInputMessage now1 c m1) m2).lastSeen = now2 :=
  ⟨rfl, rfl, rfl⟩

/-- A host session entry for the liveness model: session id, whether the transport
socket is open, and the liveness timestamp (`lastSeen`). -/
structure HostSession where
  sid : ℕ
  wsOpen : Bool
  lastSeen : ℚ
deriving DecidableEq

/-- The slice of host state the disconnect path touches: the sessions map and the
player rigid bodies, both keyed here by session id. -/
structure HostState where
  clients : List HostSession
  bodies : List ℕ
deriving DecidableEq

/-- Broadcasts and pings produced by the host paths modelled here. -/
inductive HostMsg
  | playerLeft (sid : ℕ)
  | ping (sid : ℕ)
deriving DecidableEq

/-- `removePlayer` on the host: a no-op when the session id is absent from the clients
map; otherwise removes the player's rigid body (when present) and deletes the session
entry. Idempotent by construction. -/
def removePlayer (sid : ℕ) (st : HostState) : HostState :=
  if st.clients.any (fun c => c.sid == sid) then
    { clients := st.clients.filter (fun c => c.sid != sid)
      bodies := st.bodies.filter (fun b => b != sid) }
  else st

/-- `const HEARTBEAT_MS = 15000`. -/
def HEARTBEAT_MS : ℚ := 15000

/-- One iteration of the heartbeat sweep over a session: sessions without an open
socket are skipped; a session silent for more than two heartbeat intervals has its
socket terminated (queueing a transport close event), is removed, and a player-left
broadcast is produced; otherwise the session is pinged. The third component records
the ids whose sockets were terminated. -/
def sweepStep (now : ℚ) (acc : HostState × List HostMsg × List ℕ) (c : HostSession) :
    HostState × List HostMsg × List ℕ :=
  if c.wsOpen then
    if HEARTBEAT_MS * 2 < now - c.lastSeen then
      (removePlayer c.sid acc.1, acc.2.1 ++ [HostMsg.playerLeft c.sid], acc.2.2 ++ [c.sid])
    else
      (acc.1, acc.2.1 ++ [HostMsg.ping c.sid], acc.2.2)
  else acc

/-- The heartbeat `setInterval` body: sweep every session entry. -/
def heartbeatSweep (now : ℚ) (st : HostState) : HostState × List HostMsg × List ℕ :=
  st.clients.foldl (sweepStep now) (st, [], [])

/-- The `ws.on('close')` handler: `removePlayer(id)` followed by an unconditional
`player-left` broadcast. -/
def closeHandler (acc : HostState × List HostMsg) (sid : ℕ) : HostState × List HostMsg :=
  (removePlayer sid acc.1, acc.2 ++ [HostMsg.playerLeft sid])

/-- A heartbeat sweep followed by the transport close events of the sockets it
terminated, which fire the close handler once each. -/
def sweepThenClose (now : ℚ) (st : HostState) : HostState × List HostMsg :=
  let r := heartbeatSweep now st
  r.2.2.foldl closeHandler (r.1, r.2.1)

/-- C5: a session silent for more than two heartbeat intervals (30001 ms > 30000 ms)
is removed by the next sweep, entry and physics body both deleted, but the execution
produces TWO player-left broadcasts for it: one from the sweep itself and a second one
from the unconditional broadcast in the transport close handler fired by the forced
termination. Session removal is idempotent, the broadcast is not. -/
theorem heartbeat_timeout_double_broadcast :
    (sweepThenClose 30001 ⟨[⟨1, true, 0⟩], [1]⟩).1 = ⟨[], []⟩ ∧
      ((sweepThenClose 30001 ⟨[⟨1, true, 0⟩], [1]⟩).2).count (HostMsg.playerLeft 1) = 2 := by
  have hc : HEARTBEAT_MS * 2 < (30001 : ℚ) := by rw [HEARTBEAT_MS]; norm_num
  constructor
  · simp [sweepThenClose, heartbeatSweep, sweepStep, closeHandler, removePlayer, hc]
  · simp [sweepThenClose, heartbeatSweep, sweepStep, closeHandler, removePlayer, hc,
      List.count_cons]

/-- The host's `spawnPlayer` position: `spawnX = (clients.size % 4) * 4 - 4`,
`spawnZ = Math.floor(clients.size / 4) * 4 - 4`, y = 0.6. The session id (given as
its UTF-16 code units) plays no role in the position. -/
def spawnPlayerPosition (_idCodes : List ℕ) (clientCount : ℕ) : ℚ × ℚ × ℚ :=
  (((clientCount % 4 : ℕ) : ℚ) * 4 - 4, 3 / 5, ((clientCount / 4 : ℕ) : ℚ) * 4 - 4)

/-- One step of `hashIdForSlot` from game.js: `hash = (hash * 31 + code) >>> 0`
(the unsigned shift keeps the value in 32 bits). -/
def hashStep (h c : ℕ) : ℕ := (h * 31 + c) % 4294967296

/-- `hashIdForSlot(text)`: fold the hash step over the id's UTF-16 code units. -/
def hashIdForSlot (codes : List ℕ) : ℕ := codes.foldl hashStep 0

/-- `SAFE_SPAWN_SLOTS` from game.js. -/
def SAFE_SPAWN_SLOTS : List (ℚ × ℚ × ℚ) :=
  [(0, 0, 0), (4, 0, 0), (-4, 0, 0), (0, 0, 4), (0, 0, -4),
    (4, 0, 4), (-4, 0, 4), (4, 0, -4), (-4, 0, -4)]

/-- `SAFE_ZONE.center` from game.js. -/
def SAFE_ZONE_center : ℚ × ℚ × ℚ := (0, 0, 0)

/-- `SAFE_ZONE.radius` from game.js. -/
def SAFE_ZONE_radius : ℚ := 10

/-- `SAFE_ZONE.height` from game.js. -/
def SAFE_ZONE_height : ℚ := 3 / 5

/-- `getSafeSpawnTransform(id)` on the client: the slot index is the id hash modulo
the slot-table length, the slot is added to the safe-zone center, and y is forced to
the safe-zone height. -/
def getSafeSpawnTransform (codes : List ℕ) : ℚ × ℚ × ℚ :=
  let slot := SAFE_SPAWN_SLOTS.getD (hashIdForSlot codes % SAFE_SPAWN_SLOTS.length) (0, 0, 0)
  (SAFE_ZONE_center.1 + slot.1, SAFE_ZONE_height, SAFE_ZONE_center.2.2 + slot.2.2)

/-- `isInsideSafeZone(x, z, margin)`: `Math.hypot(dx, dz) < radius + margin`.
Stated as the equivalent squared comparison, which keeps the embedding in exact
rationals (both sides of the source comparison are nonnegative for the margins used). -/
def isInsideSafeZone (x z margin : ℚ) : Bool :=
  decide ((x - SAFE_ZONE_center.1) ^ 2 + (z - SAFE_ZONE_center.2.2) ^ 2 <
    (SAFE_ZONE_radius + margin) ^ 2)

/-- C6 counterexample: the host spawn position is a function of the current client
count and not of the session id: the same id receives different slots at client counts
0 and 1, while two different ids connecting at the same count receive the same slot. -/
theorem spawn_slot_count_counterexample :
    spawnPlayerPosition [97] 0 ≠ spawnPlayerPosition [97] 1 ∧
      spawnPlayerPosition [97] 0 = spawnPlayerPosition [98] 0 := by
  constructor
  · intro hc
    have h1 := congrArg Prod.fst hc
    simp [spawnPlayerPosition] at h1
  · rfl

/-- C6 (amended): the host spawns a connecting participant on a grid slot determined
solely by the current number of connected sessions, x = (n mod 4)*4 - 4, y = 0.6,
z = (n / 4)*4 - 4, independent of the session id; the hash-of-id-modulo-slot-table
rule is the client-side `getSafeSpawnTransform`, whose slot index always falls within
the 9-entry table and whose spawn position always lies inside the safe zone that prop
placement keeps clear. -/
theorem spawn_slot_scheme (codes other : List ℕ) (n : ℕ) :
    spawnPlayerPosition codes n =
        (((n % 4 : ℕ) : ℚ) * 4 - 4, 3 / 5, ((n / 4 : ℕ) : ℚ) * 4 - 4) ∧
      spawnPlayerPosition codes n = spawnPlayerPosition other n ∧
      hashIdForSlot codes % SAFE_SPAWN_SLOTS.length < 9 ∧
      isInsideSafeZone (getSafeSpawnTransform codes).1 (getSafeSpawnTransform codes).2.2 0 =
        true := by
  refine ⟨rfl, rfl, ?_, ?_⟩
  · have hlen : SAFE_SPAWN_SLOTS.length = 9 := rfl
    rw [hlen]
    exact Nat.mod_lt _ (by norm_num)
  · simp only [getSafeSpawnTransform]
    have hk : hashIdForSlot codes % SAFE_SPAWN_SLOTS.length < 9 := by
      have hlen : SAFE_SPAWN_SLOTS.length = 9 := rfl
      rw [hlen]
      exact Nat.mod_lt _ (by norm_num)
    generalize hg : hashIdForSlot codes % SAFE_SPAWN_SLOTS.length = k at hk
    interval_cases k <;>
      norm_num [isInsideSafeZone, SAFE_SPAWN_SLOTS, SAFE_ZONE_center, SAFE_ZONE_radius,
        List.getD]

/-- `THREE.MathUtils.lerp(x, y, t) = (1 - t) * x + t * y`. -/
def mathLerp (x y t : ℚ) : ℚ := (1 - t) * x + t * y

/-- An entity state record as carried in snapshots, restricted to the fields with
exact rational semantics: the position and linear-velocity triples (the quaternion
slerp of `interpolateState` involves square roots and trigonometry and is not part of
the position claims checked here). -/
structure EntityState where
  p : ℚ × ℚ × ℚ
  lv : ℚ × ℚ × ℚ
deriving DecidableEq

/-- The `lerpVec` helper of `interpolateState`: componentwise `THREE.MathUtils.lerp`. -/
def lerpVec (va vb : ℚ × ℚ × ℚ) (t : ℚ) : ℚ × ℚ × ℚ :=
  (mathLerp va.1 vb.1 t, mathLerp va.2.1 vb.2.1 t, mathLerp va.2.2 vb.2.2 t)

/-- `interpolateState(a, b, alpha)` with its null guards (`if (!b) return a;
if (!a) return b;`) and componentwise interpolation of positions and velocities. -/
def interpolateState : Option EntityState → Option EntityState → ℚ → Option EntityState
  | a, none, _ => a
  | none, some b, _ => some b
  | some a, some b, t => some { p := lerpVec a.p b.p t, lv := lerpVec a.lv b.lv t }

theorem mathLerp_zero (x y : ℚ) : mathLerp x y 0 = x := by rw [mathLerp]; ring

theorem mathLerp_one (x y : ℚ) : mathLerp x y 1 = y := by rw [mathLerp]; ring

theorem mathLerp_between (x y t : ℚ) (h0 : 0 ≤ t) (h1 : t ≤ 1) :
    min x y ≤ mathLerp x y t ∧ mathLerp x y t ≤ max x y := by
  rw [mathLerp]
  rcases le_total x y with hxy | hxy
  · rw [min_eq_left hxy, max_eq_right hxy]
    constructor <;> nlinarith
  · rw [min_eq_right hxy, max_eq_left hxy]
    constructor <;> nlinarith

theorem mathLerp_mono (x y a b : ℚ) (hab : a ≤ b) (hxy : x ≤ y) :
    mathLerp x y a ≤ mathLerp x y b := by
  rw [mathLerp, mathLerp]
  nlinarith

theorem mathLerp_anti (x y a b : ℚ) (hab : a ≤ b) (hxy : y ≤ x) :
    mathLerp x y b ≤ mathLerp x y a := by
  rw [mathLerp, mathLerp]
  nlinarith

theorem lerpVec_zero (va vb : ℚ × ℚ × ℚ) : lerpVec va vb 0 = va := by
  rw [lerpVec, mathLerp_zero, mathLerp_zero, mathLerp_zero]

theorem lerpVec_one (va vb : ℚ × ℚ × ℚ) : lerpVec va vb 1 = vb := by
  rw [lerpVec, mathLerp_one, mathLerp_one, mathLerp_one]

/-- C7: interpolation at alpha 0 returns exactly the first state and at alpha 1
exactly the second; for alpha in [0,1] every interpolated position component lies
between the corresponding components of the two states; and each component is
monotone in alpha: non-decreasing when the target component is at least the source
one, non-increasing otherwise. -/
theorem interpolate_state_contract (a b : EntityState) (al be : ℚ)
    (h0 : 0 ≤ al) (hab : al ≤ be) (h1 : be ≤ 1) :
    interpolateState (some a) (some b) 0 = some a ∧
    interpolateState (some a) (some b) 1 = some b ∧
    (min a.p.1 b.p.1 ≤ (lerpVec a.p b.p al).1 ∧ (lerpVec a.p b.p al).1 ≤ max a.p.1 b.p.1) ∧
    (min a.p.2.1 b.p.2.1 ≤ (lerpVec a.p b.p al).2.1 ∧
      (lerpVec a.p b.p al).2.1 ≤ max a.p.2.1 b.p.2.1) ∧
    (min a.p.2.2 b.p.2.2 ≤ (lerpVec a.p b.p al).2.2 ∧
      (lerpVec a.p b.p al).2.2 ≤ max a.p.2.2 b.p.2.2) ∧
    (a.p.1 ≤ b.p.1 → (lerpVec a.p b.p al).1 ≤ (lerpVec a.p b.p be).1) ∧
    (b.p.1 ≤ a.p.1 → (lerpVec a.p b.p be).1 ≤ (lerpVec a.p b.p al).1) ∧
    (a.p.2.1 ≤ b.p.2.1 → (lerpVec a.p b.p al).2.1 ≤ (lerpVec a.p b.p be).2.1) ∧
    (b.p.2.1 ≤ a.p.2.1 → (lerpVec a.p b.p be).2.1 ≤ (lerpVec a.p b.p al).2.1) ∧
    (a.p.2.2 ≤ b.p.2.2 → (lerpVec a.p b.p al).2.2 ≤ (lerpVec a.p b.p be).2.2) ∧
    (b.p.2.2 ≤ a.p.2.2 → (lerpVec a.p b.p be).2.2 ≤ (lerpVec a.p b.p al).2.2) := by
  have hbe0 : 0 ≤ be := le_trans h0 hab
  have hal1 : al ≤ 1 := le_trans hab h1
  refine ⟨?_, ?_, ?_, ?_, ?_, ?_, ?_, ?_, ?_, ?_, ?_⟩
  · show some ⟨lerpVec a.p b.p 0, lerpVec a.lv b.lv 0⟩ = some a
    rw [lerpVec_zero, lerpVec_zero]
  · show some ⟨lerpVec a.p b.p 1, lerpVec a.lv b.lv 1⟩ = some b
    rw [lerpVec_one, lerpVec_one]
  · exact mathLerp_between _ _ _ h0 hal1
  · exact mathLerp_between _ _ _ h0 hal1
  · exact mathLerp_between _ _ _ h0 hal1
  · exact fun hx => mathLerp_mono _ _ _ _ hab hx
  · exact fun hx => mathLerp_anti _ _ _ _ hab hx
  · exact fun hx => mathLerp_mono _ _ _ _ hab hx
  · exact fun hx => mathLerp_anti _ _ _ _ hab hx
  · exact fun hx => mathLerp_mono _ _ _ _ hab hx
  · exact fun hx => mathLerp_anti _ _ _ _ hab hx

/-- C7 witness: concrete states with positions (0,0,0) and (1,2,3) at alphas 1/4 and
1/2. -/
theorem interpolate_state_contract_witness :
    ((0 : ℚ) ≤ 1 / 4 ∧ (1 : ℚ) / 4 ≤ 1 / 2 ∧ (1 : ℚ) / 2 ≤ 1) ∧
      (interpolateState (some ⟨(0, 0, 0), (0, 0, 0)⟩) (some ⟨(1, 2, 3), (0, 0, 0)⟩) 0 =
          some ⟨(0, 0, 0), (0, 0, 0)⟩ ∧
        interpolateState (some ⟨(0, 0, 0), (0, 0, 0)⟩) (some ⟨(1, 2, 3), (0, 0, 0)⟩) 1 =
          some ⟨(1, 2, 3), (0, 0, 0)⟩ ∧
        (min (0 : ℚ) 1 ≤ (lerpVec (0, 0, 0) (1, 2, 3) (1 / 4)).1 ∧
          (lerpVec (0, 0, 0) (1, 2, 3) (1 / 4)).1 ≤ max (0 : ℚ) 1) ∧
        (min (0 : ℚ) 2 ≤ (lerpVec (0, 0, 0) (1, 2, 3) (1 / 4)).2.1 ∧
          (lerpVec (0, 0, 0) (1, 2, 3) (1 / 4)).2.1 ≤ max (0 : ℚ) 2) ∧
        (min (0 : ℚ) 3 ≤ (lerpVec (0, 0, 0) (1, 2, 3) (1 / 4)).2.2 ∧
          (lerpVec (0, 0, 0) (1, 2, 3) (1 / 4)).2.2 ≤ max (0 : ℚ) 3) ∧
        ((0 : ℚ) ≤ 1 →
          (lerpVec (0, 0, 0) (1, 2, 3) (1 / 4)).1 ≤ (lerpVec (0, 0, 0) (1, 2, 3) (1 / 2)).1) ∧
        ((1 : ℚ) ≤ 0 →
          (lerpVec (0, 0, 0) (1, 2, 3) (1 / 2)).1 ≤ (lerpVec (0, 0, 0) (1, 2, 3) (1 / 4)).1) ∧
        ((0 : ℚ) ≤ 2 →
          (lerpVec (0, 0, 0) (1, 2, 3) (1 / 4)).2.1 ≤ (lerpVec (0, 0, 0) (1, 2, 3) (1 / 2)).2.1) ∧
        ((2 : ℚ) ≤ 0 →
          (lerpVec (0, 0, 0) (1, 2, 3) (1 / 2)).2.1 ≤ (lerpVec (0, 0, 0) (1, 2, 3) (1 / 4)).2.1) ∧
        ((0 : ℚ) ≤ 3 →
          (lerpVec (0, 0, 0) (1, 2, 3) (1 / 4)).2.2 ≤ (lerpVec (0, 0, 0) (1, 2, 3) (1 / 2)).2.2) ∧
        ((3 : ℚ) ≤ 0 →
          (lerpVec (0, 0, 0) (1, 2, 3) (1 / 2)).2.2 ≤ (lerpVec (0, 0, 0) (1, 2, 3) (1 / 4)).2.2)) :=
  ⟨⟨by norm_num, by norm_num, by norm_num⟩,
    interpolate_state_contract ⟨(0, 0, 0), (0, 0, 0)⟩ ⟨(1, 2, 3), (0, 0, 0)⟩ (1 / 4) (1 / 2)
      (by norm_num) (by norm_num) (by norm_num)⟩

/-- A 3-vector with rational components. -/
structure Vec3 where
  x : ℚ
  y : ℚ
  z : ℚ
deriving DecidableEq

/-- Scalar multiplication, `vec.multiplyScalar(c)`. -/
def Vec3.smul (c : ℚ) (v : Vec3) : Vec3 := ⟨c * v.x, c * v.y, c * v.z⟩

/-- Componentwise addition. -/
def Vec3.add (v w : Vec3) : Vec3 := ⟨v.x + w.x, v.y + w.y, v.z + w.z⟩

/-- Squared Euclidean length, `vec.lengthSq()`. -/
def Vec3.normSq (v : Vec3) : ℚ := v.x * v.x + v.y * v.y + v.z * v.z

/-- `DRIVE.maxSpeed = 11.0`. -/
def DRIVE_maxSpeed : ℚ := 11

/-- `DRIVE.maxReverse = 7.5`. -/
def DRIVE_maxReverse : ℚ := 15 / 2

/-- `DRIVE.speedClamp = 0.32`. -/
def DRIVE_speedClamp : ℚ := 8 / 25

/-- The soft-speed-clamp block at the end of `applyPlayerForces` in game.js: with
`speed = vel.length()` and `speedAlong = vel.dot(forward)`, when
`speed > forwardMax + 0.35` the impulse
`vel.clone().normalize().multiplyScalar((speed - forwardMax) * speedClamp)` is applied
negated, otherwise no impulse fires. The parameter `s` stands for `vel.length()`; the
square root is irrational, so `s` is passed separately and constrained by
`s * s = vel.normSq` in the theorems. -/
def speedClampImpulse (vel : Vec3) (s speedAlong : ℚ) : Option Vec3 :=
  let forwardMax := if 0 ≤ speedAlong then DRIVE_maxSpeed else DRIVE_maxReverse
  if forwardMax + 7 / 20 < s then
    some (Vec3.smul (-((s - forwardMax) * DRIVE_speedClamp)) (Vec3.smul (1 / s) vel))
  else none

/-- Rapier's `applyImpulse` effect on linear velocity: the impulse divided by the body
mass is added to the velocity. -/
def applyLinImpulse (m : ℚ) (v imp : Vec3) : Vec3 := Vec3.add v (Vec3.smul (1 / m) imp)

/-- The velocity after the clamp block: unchanged when no impulse fires. -/
def speedClampStep (m : ℚ) (vel : Vec3) (s speedAlong : ℚ) : Vec3 :=
  match speedClampImpulse vel s speedAlong with
  | none => vel
  | some imp => applyLinImpulse m vel imp

theorem normSq_smul (t : ℚ) (v : Vec3) : (Vec3.smul t v).normSq = t ^ 2 * v.normSq := by
  rcases v with ⟨vx, vy, vz⟩
  simp only [Vec3.smul, Vec3.normSq]
  ring

set_option maxHeartbeats 1600000 in
/-- C8: the direction-dependent maximum is 11 forward and 7.5 in reverse; when the
speed exceeds it by more than the 0.35 margin, the clamp fires an impulse that is a
negative multiple of the velocity (opposite direction) with squared magnitude
`((speed - forwardMax) * speedClamp)^2`, and the resulting velocity has strictly
smaller speed (for any body mass above 4/25, which the car's collider mass easily
clears); when the speed is within the margin, no impulse is applied and the velocity
is unchanged. -/
theorem speed_clamp_contract (m : ℚ) (vel : Vec3) (s speedAlong : ℚ)
    (hs : s * s = vel.normSq) (hm : 4 / 25 < m) :
    ((if 0 ≤ speedAlong then DRIVE_maxSpeed else DRIVE_maxReverse) + 7 / 20 < s →
      speedClampImpulse vel s speedAlong =
          some (Vec3.smul
            (-((s - (if 0 ≤ speedAlong then DRIVE_maxSpeed else DRIVE_maxReverse)) *
              DRIVE_speedClamp / s)) vel) ∧
        (Vec3.smul
            (-((s - (if 0 ≤ speedAlong then DRIVE_maxSpeed else DRIVE_maxReverse)) *
              DRIVE_speedClamp / s)) vel).normSq =
          ((s - (if 0 ≤ speedAlong then DRIVE_maxSpeed else DRIVE_maxReverse)) *
            DRIVE_speedClamp) ^ 2 ∧
        -((s - (if 0 ≤ speedAlong then DRIVE_maxSpeed else DRIVE_maxReverse)) *
          DRIVE_speedClamp / s) < 0 ∧
        (speedClampStep m vel s speedAlong).normSq < s * s) ∧
    (s ≤ (if 0 ≤ speedAlong then DRIVE_maxSpeed else DRIVE_maxReverse) + 7 / 20 →
      speedClampImpulse vel s speedAlong = none ∧
        speedClampStep m vel s speedAlong = vel) := by
  have hfm_pos : 0 < (if 0 ≤ speedAlong then DRIVE_maxSpeed else DRIVE_maxReverse) := by
    by_cases hsa : 0 ≤ speedAlong
    · rw [if_pos hsa, DRIVE_maxSpeed]; norm_num
    · rw [if_neg hsa, DRIVE_maxReverse]; norm_num
  set fm := (if 0 ≤ speedAlong then DRIVE_maxSpeed else DRIVE_maxReverse) with hfm
  constructor
  · intro hover
    have hs_pos : 0 < s := by linarith
    have hs_ne : s ≠ 0 := ne_of_gt hs_pos
    have hm_pos : 0 < m := by linarith
    have hm_ne : m ≠ 0 := ne_of_gt hm_pos
    have himp : speedClampImpulse vel s speedAlong =
        some (Vec3.smul (-((s - fm) * DRIVE_speedClamp / s)) vel) := by
      rw [speedClampImpulse]
      rw [← hfm, if_pos hover]
      congr 1
      rcases vel with ⟨vx, vy, vz⟩
      simp only [Vec3.smul, Vec3.mk.injEq]
      refine ⟨?_, ?_, ?_⟩ <;> field_simp
    refine ⟨himp, ?_, ?_, ?_⟩
    · rw [normSq_smul, ← hs]
      rw [neg_sq, div_pow, div_mul_eq_mul_div, ← pow_two s, mul_div_assoc,
        div_self (pow_ne_zero 2 hs_ne), mul_one]
    · have hover2 : 0 < (s - fm) * DRIVE_speedClamp / s := by
        rw [DRIVE_speedClamp]
        have h1 : 0 < s - fm := by linarith
        positivity
      linarith
    · have hstep : speedClampStep m vel s speedAlong =
          Vec3.smul (1 - (s - fm) * DRIVE_speedClamp / (m * s)) vel := by
        rw [speedClampStep, himp]
        rcases vel with ⟨vx, vy, vz⟩
        simp only [applyLinImpulse, Vec3.add, Vec3.smul, Vec3.mk.injEq]
        refine ⟨?_, ?_, ?_⟩ <;> (field_simp; ring)
      rw [hstep, normSq_smul, ← hs]
      have hss_pos : 0 < s * s := mul_pos hs_pos hs_pos
      have hk_def : 0 < (s - fm) * DRIVE_speedClamp / (m * s) := by
        rw [DRIVE_speedClamp]
        have h1 : 0 < s - fm := by linarith
        positivity
      have hk_lt : (s - fm) * DRIVE_speedClamp / (m * s) < 2 := by
        rw [DRIVE_speedClamp]
        rw [div_lt_iff₀ (by positivity)]
        have h1 : s - fm < s := by linarith
        have ha : (s - fm) * (8 / 25) < s * (8 / 25) := by nlinarith
        have hb : s * (8 / 25) < s * (2 * m) := by nlinarith
        nlinarith
      have hsq : (1 - (s - fm) * DRIVE_speedClamp / (m * s)) ^ 2 < 1 := by
        nlinarith [hk_def, hk_lt]
      calc (1 - (s - fm) * DRIVE_speedClamp / (m * s)) ^ 2 * (s * s)
          < 1 * (s * s) := mul_lt_mul_of_pos_right hsq hss_pos
        _ = s * s := one_mul _
  · intro hunder
    have himp : speedClampImpulse vel s speedAlong = none := by
      rw [speedClampImpulse, ← hfm, if_neg (by linarith)]
    exact ⟨himp, by rw [speedClampStep, himp]⟩

/-- C8 witness: velocity (13, 0, 0) moving forward with speed 13 over the forward
maximum 11, body mass 1: the clamp fires and reduces the squared speed. -/
theorem speed_clamp_contract_witness :
    ((13 : ℚ) * 13 = (Vec3.normSq ⟨13, 0, 0⟩) ∧ (4 : ℚ) / 25 < 1) ∧
      (((if (0 : ℚ) ≤ 13 then DRIVE_maxSpeed else DRIVE_maxReverse) + 7 / 20 < 13 →
        speedClampImpulse ⟨13, 0, 0⟩ 13 13 =
            some (Vec3.smul
              (-((13 - (if (0 : ℚ) ≤ 13 then DRIVE_maxSpeed else DRIVE_maxReverse)) *
                DRIVE_speedClamp / 13)) ⟨13, 0, 0⟩) ∧
          (Vec3.smul
              (-((13 - (if (0 : ℚ) ≤ 13 then DRIVE_maxSpeed else DRIVE_maxReverse)) *
                DRIVE_speedClamp / 13)) ⟨13, 0, 0⟩).normSq =
            ((13 - (if (0 : ℚ) ≤ 13 then DRIVE_maxSpeed else DRIVE_maxReverse)) *
              DRIVE_speedClamp) ^ 2 ∧
          -((13 - (if (0 : ℚ) ≤ 13 then DRIVE_maxSpeed else DRIVE_maxReverse)) *
            DRIVE_speedClamp / 13) < 0 ∧
          (speedClampStep 1 ⟨13, 0, 0⟩ 13 13).normSq < 13 * 13) ∧
      ((13 : ℚ) ≤ (if (0 : ℚ) ≤ 13 then DRIVE_maxSpeed else DRIVE_maxReverse) + 7 / 20 →
        speedClampImpulse ⟨13, 0, 0⟩ 13 13 = none ∧
          speedClampStep 1 ⟨13, 0, 0⟩ 13 13 = ⟨13, 0, 0⟩)) :=
  ⟨⟨by rw [Vec3.normSq]; norm_num, by norm_num⟩,
    speed_clamp_contract 1 ⟨13, 0, 0⟩ 13 13 (by rw [Vec3.normSq]; norm_num) (by norm_num)⟩

/-- A rigid body's kinematic state as read and written by the prop reset check. -/
structure BodyState where
  pos : Vec3
  rot : ℚ × ℚ × ℚ × ℚ
  linvel : Vec3
  angvel : Vec3
deriving DecidableEq

/-- A server prop: the `dynamic` flag, the possibly absent rigid body behind
`world.getRigidBody(prop.bodyHandle)`, and the recorded initial transform. -/
structure ServerProp where
  dynamic : Bool
  body : Option BodyState
  initialP : Vec3
  initialQ : ℚ × ℚ × ℚ × ℚ
deriving DecidableEq

/-- The out-of-bounds test of `resetPropIfOutOfBounds`:
`Math.abs(t.x) > 200 || t.y < -20 || Math.abs(t.z) > 200`. -/
def outOfBounds (t : Vec3) : Bool :=
  decide (200 < |t.x|) || decide (t.y < -20) || decide (200 < |t.z|)

/-- `resetPropIfOutOfBounds` on the host: non-dynamic props and props whose body is
missing are left alone; a dynamic body out of bounds is put back at the recorded
initial translation and rotation with zero linear and angular velocity. -/
def resetPropIfOutOfBounds (p : ServerProp) : ServerProp :=
  if p.dynamic = false then p
  else
    match p.body with
    | none => p
    | some b =>
      if outOfBounds b.pos then
        { p with body := some ⟨p.initialP, p.initialQ, ⟨0, 0, 0⟩, ⟨0, 0, 0⟩⟩ }
      else p

/-- C9: a dynamic prop whose body left the play area (x beyond 200, y below -20 or z
beyond 200) is reset to its recorded initial translation and rotation with zero
velocities; an in-bounds, non-dynamic or body-less prop is left unchanged; and the
prop is never destroyed: flag, recorded transform and body presence are preserved. -/
theorem prop_reset_contract (p : ServerProp) :
    (resetPropIfOutOfBounds p).dynamic = p.dynamic ∧
    (resetPropIfOutOfBounds p).initialP = p.initialP ∧
    (resetPropIfOutOfBounds p).initialQ = p.initialQ ∧
    ((resetPropIfOutOfBounds p).body).isSome = (p.body).isSome ∧
    (∀ b, p.body = some b → p.dynamic = true → outOfBounds b.pos = true →
      (resetPropIfOutOfBounds p).body = some ⟨p.initialP, p.initialQ, ⟨0, 0, 0⟩, ⟨0, 0, 0⟩⟩) ∧
    (∀ b, p.body = some b → outOfBounds b.pos = false → resetPropIfOutOfBounds p = p) ∧
    (p.dynamic = false → resetPropIfOutOfBounds p = p) ∧
    (p.body = none → resetPropIfOutOfBounds p = p) := by
  rcases p with ⟨dyn, body, ip, iq⟩
  cases dyn
  · simp [resetPropIfOutOfBounds]
  · cases body with
    | none => simp [resetPropIfOutOfBounds]
    | some b =>
      by_cases hob : outOfBounds b.pos = true
      · simp [resetPropIfOutOfBounds, hob]
      · simp [resetPropIfOutOfBounds, hob]

/-- C9 witness: a concrete dynamic prop whose body sits at x = 250, outside the play
area; applying the contract shows it is reset in place. -/
theorem prop_reset_contract_witness :
    (resetPropIfOutOfBounds
        ⟨true, some ⟨⟨250, 0, 0⟩, (0, 0, 0, 1), ⟨1, 1, 1⟩, ⟨2, 2, 2⟩⟩, ⟨1, 2, 3⟩,
          (0, 0, 0, 1)⟩).dynamic = true ∧
      (resetPropIfOutOfBounds
        ⟨true, some ⟨⟨250, 0, 0⟩, (0, 0, 0, 1), ⟨1, 1, 1⟩, ⟨2, 2, 2⟩⟩, ⟨1, 2, 3⟩,
          (0, 0, 0, 1)⟩).body =
        some ⟨⟨1, 2, 3⟩, (0, 0, 0, 1), ⟨0, 0, 0⟩, ⟨0, 0, 0⟩⟩ := by
  have h := prop_reset_contract
    ⟨true, some ⟨⟨250, 0, 0⟩, (0, 0, 0, 1), ⟨1, 1, 1⟩, ⟨2, 2, 2⟩⟩, ⟨1, 2, 3⟩, (0, 0, 0, 1)⟩
  refine ⟨h.1, ?_⟩
  have hob : outOfBounds (⟨250, 0, 0⟩ : Vec3) = true := by
    norm_num [outOfBounds]
  exact h.2.2.2.2.1 ⟨⟨250, 0, 0⟩, (0, 0, 0, 1), ⟨1, 1, 1⟩, ⟨2, 2, 2⟩⟩ rfl rfl hob

/-- The player ground-contact state: the reference counter `playerGroundContacts` and
the derived flag `playerGrounded`. -/
structure GroundState where
  contacts : ℤ
  grounded : Bool
deriving DecidableEq

/-- `updateGroundState` for an event involving the player collider: a contact-begin
increments the counter, a contact-end decrements it but never below zero
(`Math.max(0, n - 1)`), and the grounded flag becomes `counter > 0`. -/
def updateGroundState (st : GroundState) (started : Bool) : GroundState :=
  let c := if started then st.contacts + 1 else max 0 (st.contacts - 1)
  { contacts := c, grounded := decide (0 < c) }

/-- Folding a sequence of contact-begin (`true`) / contact-end (`false`) events over
the initial state: zero contacts, not grounded. -/
def runGroundEvents (evts : List Bool) : GroundState :=
  evts.foldl updateGroundState ⟨0, false⟩

/-- C10: over every sequence of contact-begin and contact-end events involving the
player collider, including sequences with more ends than begins, the contact counter
never becomes negative, a contact-end at counter 0 leaves the counter at 0, and after
every event the grounded flag equals `counter > 0`. -/
theorem ground_contact_invariant (evts : List Bool) :
    0 ≤ (runGroundEvents evts).contacts ∧
    (runGroundEvents evts).grounded = decide (0 < (runGroundEvents evts).contacts) ∧
    updateGroundState ⟨0, false⟩ false = ⟨0, false⟩ := by
  have haux : ∀ (es : List Bool) (st : GroundState), 0 ≤ st.contacts →
      st.grounded = decide (0 < st.contacts) →
      0 ≤ (es.foldl updateGroundState st).contacts ∧
        (es.foldl updateGroundState st).grounded =
          decide (0 < (es.foldl updateGroundState st).contacts) := by
    intro es
    induction es with
    | nil => intro st h1 h2; exact ⟨h1, h2⟩
    | cons e rest ih =>
      intro st h1 _
      rw [List.foldl_cons]
      refine ih (updateGroundState st e) ?_ rfl
      rw [updateGroundState]
      cases e
      · simp only [Bool.false_eq_true, if_false]
        exact le_max_left 0 _
      · simp only [if_true]
        omega
  have h := haux evts ⟨0, false⟩ (by norm_num) (by norm_num)
  refine ⟨h.1, h.2, ?_⟩
  rw [updateGroundState]
  norm_num

end MiniCar
